import Mathlib

/-!
# ec2info: grouping EC2 instances by machine image

A shallow embedding of `main.go`: the data shapes `ImageInfo` and `AMI`, the
image lookup `GetAMIInfo`, the grouping loop `GatherAMIInfo` and the driver
`runApp`, followed by the properties proved about them.

Modelling conventions.

* The AWS service is a value `c : ec2.Client σ` of two operations over an
  explicit service state `σ`; every call threads the state, so a resolver may
  answer differently each time it is asked.
* A Go pointer field `*string` is an `Option String`; `aws.ToString` maps `nil`
  to `""`, and a raw dereference `*p` of `nil` is a run-time panic, which is an
  outcome of its own.
* A Go `map[string]AMI` is a list of entries with pairwise distinct keys.
  Ranging over a map visits the entries in an order the language leaves open:
  `rangeOrder` takes the order from an oracle (a list of numbers) and every
  property is proved for every oracle.
* A Go result pair `([]AMI, error)` is `Outcome.ret amis err`, the nil slice
  being `[]` and the nil error `none`.
* The calls made to `GetAMIInfo` are recorded, in order, with their answers.
* An SDK call that returns a nil error returns a non-nil response, so a
  response is a value; the argument `instances` of `GatherAMIInfo` is such a
  response. `context.Context` has no part of its own: a cancelled call is a
  call that returns an error.
-/

namespace Ec2info

/-! ## Data model -/

/-- A non-nil Go `error`: one made from a message alone, or `fmt.Errorf` with `%w`
around another error. -/
inductive GoError where
  | new (msg : String)
  | wrap (format : String) (err : GoError)
deriving DecidableEq

namespace aws

/-- The SDK helper `aws.ToString`: the pointed-to string, `""` for `nil`. -/
def ToString (p : Option String) : String :=
  match p with
  | some s => s
  | none => ""

end aws

namespace types

/-- The fields of `types.Instance` the program reads. -/
structure Instance where
  ImageId : Option String
  InstanceId : Option String
deriving DecidableEq

/-- The field of `types.Reservation` the program reads. -/
structure Reservation where
  Instances : List Instance
deriving DecidableEq

/-- The fields of `types.Image` the program reads. -/
structure Image where
  Description : Option String
  Name : Option String
  ImageLocation : Option String
  OwnerId : Option String
deriving DecidableEq

end types

namespace ec2

/-- The response of `DescribeInstances`. -/
structure DescribeInstancesOutput where
  Reservations : List types.Reservation
deriving DecidableEq

/-- The request of `DescribeImages`. -/
structure DescribeImagesInput where
  ImageIds : List String
deriving DecidableEq

/-- The response of `DescribeImages`. -/
structure DescribeImagesOutput where
  Images : List types.Image
deriving DecidableEq

/-- What a call of the SDK returns: `(out, nil)` or `(nil, err)`. -/
inductive Reply (α : Type) where
  | ok (out : α)
  | error (err : GoError)
deriving DecidableEq

/-- The SDK client `*ec2.Client`: its two operations, over the service state `σ`. -/
structure Client (σ : Type) where
  DescribeInstances : σ → Reply DescribeInstancesOutput × σ
  DescribeImages : σ → DescribeImagesInput → Reply DescribeImagesOutput × σ

end ec2

/-- The struct `ImageInfo`; the zero value has four empty strings. -/
structure ImageInfo where
  ImageDescription : String := ""
  ImageName : String := ""
  ImageLocation : String := ""
  OwnerID : String := ""
deriving DecidableEq

/-- The struct `AMI`. -/
structure AMI where
  AmiID : String
  Image : ImageInfo
  InstanceIds : List String
deriving DecidableEq

/-! ## The map `amiInfo` -/

/-- The read `v, ok := m[k]`. -/
def mapGet : List (String × AMI) → String → Option AMI
  | [], _ => none
  | (k', v) :: m, k => if k' = k then some v else mapGet m k

/-- The write `m[k] = v`: replaces the entry of `k`, or adds one. -/
def mapSet : List (String × AMI) → String → AMI → List (String × AMI)
  | [], k, v => [(k, v)]
  | (k', v') :: m, k, v => if k' = k then (k, v) :: m else (k', v') :: mapSet m k v

/-- The order in which `range` visits the entries of a map: at each step the
oracle's next number picks one of the entries not yet visited; when the oracle
runs out the rest is visited as stored. -/
def rangeOrder {α : Type} : List Nat → List α → List α
  | [], l => l
  | _ :: _, [] => []
  | k :: ks, x :: xs =>
    (x :: xs).getD (k % (xs.length + 1)) x ::
      rangeOrder ks ((x :: xs).eraseIdx (k % (xs.length + 1)))

/-! ## `GetAMIInfo` and `GatherAMIInfo` -/

/-- One recorded call of `GetAMIInfo`: the identifier asked for and the answer. -/
abbrev Call := String × ec2.Reply ec2.DescribeImagesOutput

/-- The method `GetAMIInfo`: one `DescribeImages` request for the one identifier. -/
def GetAMIInfo {σ : Type} (c : ec2.Client σ) (w : σ) (amiID : String) :
    ec2.Reply ec2.DescribeImagesOutput × σ :=
  let input : ec2.DescribeImagesInput := { ImageIds := [amiID] }
  match c.DescribeImages w input with
  | (.error err, w') => (.error err, w')
  | (.ok result, w') => (.ok result, w')

/-- Lines 98-107: the metadata kept from a lookup's answer. -/
def imageInfoOf (image : ec2.DescribeImagesOutput) : ImageInfo :=
  match image.Images with
  | [] => {}
  | resultedImage :: _ =>
    { ImageDescription := aws.ToString resultedImage.Description
      ImageName := aws.ToString resultedImage.Name
      ImageLocation := aws.ToString resultedImage.ImageLocation
      OwnerID := aws.ToString resultedImage.OwnerId }

/-- The variables of the grouping loop: the map, the calls made so far and the
service state. -/
structure LoopState (σ : Type) where
  amiInfo : List (String × AMI)
  calls : List Call
  world : σ

/-- Where the loop stands after an instance: it goes on, it has returned
`nil, err`, or it has panicked on a nil dereference. -/
inductive Flow (σ : Type) where
  | next (s : LoopState σ)
  | ret (err : GoError) (s : LoopState σ)
  | panic (s : LoopState σ)

/-- The body of the inner loop, lines 87-113, for one instance. -/
def loopBody {σ : Type} (c : ec2.Client σ) (s : LoopState σ) (inst : types.Instance) :
    Flow σ :=
  let amiID := aws.ToString inst.ImageId
  match mapGet s.amiInfo amiID with
  | some existingAMI =>
    match inst.InstanceId with
    | none => .panic s
    | some instanceId =>
      let existingAMI := { existingAMI with InstanceIds := existingAMI.InstanceIds ++ [instanceId] }
      .next { s with amiInfo := mapSet s.amiInfo amiID existingAMI }
  | none =>
    match GetAMIInfo c s.world amiID with
    | (.error err, w') =>
      .ret err { s with calls := s.calls ++ [(amiID, .error err)], world := w' }
    | (.ok image, w') =>
      let s' : LoopState σ := { s with calls := s.calls ++ [(amiID, .ok image)], world := w' }
      let imageInfo := imageInfoOf image
      match inst.InstanceId with
      | none => .panic s'
      | some instanceId =>
        .next { s' with
          amiInfo := mapSet s'.amiInfo amiID
            { AmiID := amiID, InstanceIds := [instanceId], Image := imageInfo } }

/-- One iteration: the body runs only while the function has not left the loop. -/
def loopStep {σ : Type} (c : ec2.Client σ) (fl : Flow σ) (inst : types.Instance) : Flow σ :=
  match fl with
  | .next s => loopBody c s inst
  | .ret err s => .ret err s
  | .panic s => .panic s

/-- What a run of `GatherAMIInfo` ends in: the returned pair, or a panic. -/
inductive Outcome where
  | ret (amis : List AMI) (err : Option GoError)
  | panic
deriving DecidableEq

/-- A run of `GatherAMIInfo`: its outcome, the `GetAMIInfo` calls it made and the
service state it leaves. -/
structure Run (σ : Type) where
  outcome : Outcome
  calls : List Call
  world : σ

/-- The method `GatherAMIInfo`: the two nested loops over reservations and their
instances, then the emission of the map's values in the order `range` visits
them. -/
def GatherAMIInfo {σ : Type} (c : ec2.Client σ) (w : σ) (order : List Nat)
    (instances : ec2.DescribeInstancesOutput) : Run σ :=
  let amiInfo : List (String × AMI) := []
  match instances.Reservations.foldl
      (fun fl reservation => reservation.Instances.foldl (loopStep c) fl)
      (Flow.next { amiInfo := amiInfo, calls := [], world := w }) with
  | .next s =>
    { outcome := .ret (rangeOrder order (s.amiInfo.map (fun e => e.2))) none
      calls := s.calls, world := s.world }
  | .ret err s => { outcome := .ret [] (some err), calls := s.calls, world := s.world }
  | .panic s => { outcome := .panic, calls := s.calls, world := s.world }

/-! ## `runApp` -/

/-- What `runApp` depends on besides the service: the result of
`config.LoadDefaultConfig`, the client, `json.MarshalIndent` on the report, and
the oracle of the map's iteration order. -/
structure Env (σ : Type) where
  LoadDefaultConfig : Option GoError
  ec2Client : ec2.Client σ
  MarshalIndent : List AMI → ec2.Reply String
  order : List Nat

/-- The function `LoadAWSConfig`: `none` when the configuration loads. -/
def LoadAWSConfig {σ : Type} (env : Env σ) : Option GoError :=
  match env.LoadDefaultConfig with
  | some err => some (.wrap "error loading AWS configuration: %w" err)
  | none => none

/-- The method `GetInstances`: one unfiltered `DescribeInstances` request. -/
def GetInstances {σ : Type} (c : ec2.Client σ) (w : σ) :
    ec2.Reply ec2.DescribeInstancesOutput × σ :=
  match c.DescribeInstances w with
  | (.error err, w') => (.error err, w')
  | (.ok resp, w') => (.ok resp, w')

/-- The function `PrettyString`. -/
def PrettyString {σ : Type} (env : Env σ) (v : List AMI) : ec2.Reply String :=
  match env.MarshalIndent v with
  | .error err => .error err
  | .ok prettyJSON => .ok prettyJSON

/-- A run of `runApp`: the error it returns (`some none` for nil, `none` when it
panicked), whether `GatherAMIInfo` was invoked, the `GetAMIInfo` calls made, the
lines printed and the service state left. -/
structure AppRun (σ : Type) where
  result : Option (Option GoError)
  gathered : Bool
  calls : List Call
  stdout : List String
  world : σ

/-- The function `runApp`. -/
def runApp {σ : Type} (env : Env σ) (w : σ) : AppRun σ :=
  match LoadAWSConfig env with
  | some err => { result := some (some err), gathered := false, calls := [], stdout := [], world := w }
  | none =>
    match GetInstances env.ec2Client w with
    | (.error err, w1) =>
      { result := some (some (.wrap "failed to get instances: %w" err))
        gathered := false, calls := [], stdout := [], world := w1 }
    | (.ok instancesInfo, w1) =>
      if instancesInfo.Reservations.length = 0 then
        { result := some (some (.new "no running instances were found"))
          gathered := false, calls := [], stdout := [], world := w1 }
      else
        let run := GatherAMIInfo env.ec2Client w1 env.order instancesInfo
        match run.outcome with
        | .panic =>
          { result := none, gathered := true, calls := run.calls, stdout := [], world := run.world }
        | .ret _ (some err) =>
          { result := some (some (.wrap "failed to gather AMI info: %w" err))
            gathered := true, calls := run.calls, stdout := [], world := run.world }
        | .ret amiInfo none =>
          if amiInfo.length = 0 then
            { result := some (some (.new
                "no Amazon Machine Images (AMIs) were found for the running instances"))
              gathered := true, calls := run.calls, stdout := [], world := run.world }
          else
            match PrettyString env amiInfo with
            | .error err =>
              { result := some (some (.wrap "failed to pretty print AMI info: %w" err))
                gathered := true, calls := run.calls, stdout := [], world := run.world }
            | .ok amiInfoJSON =>
              { result := some none, gathered := true, calls := run.calls
                stdout := [amiInfoJSON], world := run.world }

/-! ## Vocabulary of the statements -/

/-- The instances of a response in the order the loops visit them: reservations
in order, instances in order within each reservation. -/
def allInstances (instances : ec2.DescribeInstancesOutput) : List types.Instance :=
  instances.Reservations.flatMap (fun reservation => reservation.Instances)

/-- The image identifier under which an instance is grouped (line 87). -/
def imageIdOf (inst : types.Instance) : String :=
  aws.ToString inst.ImageId

/-- The image identifiers referenced by the instances, one per instance. -/
def imageIds (instances : ec2.DescribeInstancesOutput) : List String :=
  (allInstances instances).map imageIdOf

/-- The distinct values of a list, each at its first occurrence. -/
def firstSeen : List String → List String
  | [] => []
  | x :: xs => x :: (firstSeen xs).filter (fun y => decide (y ≠ x))

/-- The instances of the input that reference image `k`, in input order. -/
def instancesOf (instances : ec2.DescribeInstancesOutput) (k : String) : List types.Instance :=
  (allInstances instances).filter (fun inst => decide (imageIdOf inst = k))

/-- The loops of `GatherAMIInfo` run over a flat list of instances. -/
def runLoop {σ : Type} (c : ec2.Client σ) (w : σ) (l : List types.Instance) : Flow σ :=
  l.foldl (loopStep c) (Flow.next { amiInfo := [], calls := [], world := w })

/-- The loop variables a flow carries. -/
def Flow.state {σ : Type} : Flow σ → LoopState σ
  | .next s => s
  | .ret _ s => s
  | .panic s => s

/-- A flow without the service state. -/
def Flow.view {σ : Type} : Flow σ → Flow Unit
  | .next s => .next { amiInfo := s.amiInfo, calls := s.calls, world := () }
  | .ret err s => .ret err { amiInfo := s.amiInfo, calls := s.calls, world := () }
  | .panic s => .panic { amiInfo := s.amiInfo, calls := s.calls, world := () }

/-! ## The loop invariant, as a statement -/

/-- What holds of the loop variables once the instances `l` have been processed
without leaving the loop: the map's keys and the identifiers asked for are the
distinct image identifiers of `l` in first-occurrence order, every call was
answered, and every entry holds its key, the identifiers of the instances of
`l` with that image, and the metadata of the answer for that key. -/
structure Inv {σ : Type} (l : List types.Instance) (s : LoopState σ) : Prop where
  keys : s.amiInfo.map (fun e => e.1) = firstSeen (l.map imageIdOf)
  asked : s.calls.map (fun call => call.1) = firstSeen (l.map imageIdOf)
  answered : ∀ call ∈ s.calls, ∃ image, call.2 = ec2.Reply.ok image
  entries : ∀ e ∈ s.amiInfo, e.2.AmiID = e.1 ∧
    e.2.InstanceIds.map some =
      (l.filter (fun inst => decide (imageIdOf inst = e.1))).map (fun inst => inst.InstanceId) ∧
    ∃ image, (e.1, ec2.Reply.ok image) ∈ s.calls ∧ e.2.Image = imageInfoOf image

/-! ## Concrete services and inputs -/

/-- A service whose catalog answers every lookup with no image. -/
def emptyCatalog : ec2.Client Unit :=
  { DescribeInstances := fun w => (.ok { Reservations := [] }, w)
    DescribeImages := fun w _ => (.ok { Images := [] }, w) }

/-- A service whose catalog fails every lookup. -/
def failingCatalog : ec2.Client Unit :=
  { DescribeInstances := fun w => (.ok { Reservations := [] }, w)
    DescribeImages := fun w _ => (.error (.new "RequestError"), w) }

/-- A service whose catalog answers every lookup with one image named `N`. -/
def namedCatalog : ec2.Client Unit :=
  { DescribeInstances := fun w => (.ok { Reservations := [] }, w)
    DescribeImages := fun w _ =>
      (.ok { Images := [{ Description := none, Name := some "N", ImageLocation := none,
                          OwnerId := some "owner" }] }, w) }

/-- Two instances with distinct images. -/
def twoImages : ec2.DescribeInstancesOutput :=
  { Reservations := [{ Instances :=
      [{ ImageId := some "img-1", InstanceId := some "i-1" },
       { ImageId := some "img-2", InstanceId := some "i-2" }] }] }

/-- Two instances sharing one image, in two reservations. -/
def sharedImage : ec2.DescribeInstancesOutput :=
  { Reservations :=
      [{ Instances := [{ ImageId := some "img-1", InstanceId := some "i-1" }] },
       { Instances := [{ ImageId := some "img-1", InstanceId := some "i-2" }] }] }

/-- Two instance records of one image that carry the same instance identifier. -/
def repeatedInstance : ec2.DescribeInstancesOutput :=
  { Reservations := [{ Instances :=
      [{ ImageId := some "img-1", InstanceId := some "i-1" },
       { ImageId := some "img-1", InstanceId := some "i-1" }] }] }

/-- An instance record without an instance identifier, followed by an instance
of another image. -/
def missingInstanceId : ec2.DescribeInstancesOutput :=
  { Reservations := [{ Instances :=
      [{ ImageId := some "img-1", InstanceId := none },
       { ImageId := some "img-2", InstanceId := some "i-2" }] }] }

/-- One instance without an image identifier and one with the empty one. -/
def noImageId : ec2.DescribeInstancesOutput :=
  { Reservations := [{ Instances :=
      [{ ImageId := none, InstanceId := some "i-1" },
       { ImageId := some "", InstanceId := some "i-2" }] }] }

/-- A lister result of one reservation that holds no instance. -/
def emptyReservation : ec2.DescribeInstancesOutput :=
  { Reservations := [{ Instances := [] }] }

/-- An environment whose instance lister answers `listed`. -/
def envListing (listed : ec2.DescribeInstancesOutput) : Env Unit :=
  { LoadDefaultConfig := none
    ec2Client :=
      { DescribeInstances := fun w => (.ok listed, w)
        DescribeImages := fun w _ => (.ok { Images := [] }, w) }
    MarshalIndent := fun _ => .ok "[]"
    order := [] }

/-! # Theorems -/

/-! ## Lists of distinct values -/

theorem mem_firstSeen (a : String) (l : List String) : a ∈ firstSeen l ↔ a ∈ l := by
  induction l with
  | nil => simp [firstSeen]
  | cons x xs ih =>
    simp only [firstSeen, List.mem_cons, List.mem_filter, ih, decide_eq_true_eq]
    constructor
    · rintro (h | ⟨h, -⟩)
      · exact Or.inl h
      · exact Or.inr h
    · intro h
      by_cases hx : a = x
      · exact Or.inl hx
      · rcases h with h | h
        · exact absurd h hx
        · exact Or.inr ⟨h, hx⟩

theorem nodup_firstSeen (l : List String) : (firstSeen l).Nodup := by
  induction l with
  | nil => simp [firstSeen]
  | cons x xs ih =>
    simp only [firstSeen, List.nodup_cons, List.mem_filter, decide_eq_true_eq]
    exact ⟨fun h => h.2 rfl, ih.filter _⟩

theorem firstSeen_snoc (l : List String) (a : String) :
    firstSeen (l ++ [a]) = if a ∈ l then firstSeen l else firstSeen l ++ [a] := by
  induction l with
  | nil => simp [firstSeen]
  | cons x xs ih =>
    rw [List.cons_append, firstSeen, firstSeen, ih]
    by_cases hx : a = x
    · subst hx
      by_cases hm : a ∈ xs
      · simp [hm]
      · simp [hm, List.filter_append]
    · by_cases hm : a ∈ xs
      · simp [hm]
      · simp [hm, hx, List.filter_append]

theorem firstSeen_prefix (l l' : List String) : firstSeen l <+: firstSeen (l ++ l') := by
  induction l' using List.reverseRecOn with
  | nil => simp
  | append_singleton l' a ih =>
    rw [← List.append_assoc, firstSeen_snoc]
    split
    · exact ih
    · exact ih.trans (List.prefix_append _ _)

theorem firstSeen_snoc_prefix (l l' : List String) (a : String) (h : a ∉ l) :
    firstSeen l ++ [a] <+: firstSeen (l ++ a :: l') := by
  have h1 := firstSeen_prefix (l ++ [a]) l'
  rw [firstSeen_snoc, if_neg h] at h1
  simpa using h1

theorem length_firstSeen (l : List String) : (firstSeen l).length = l.toFinset.card := by
  rw [← List.toFinset_card_of_nodup (nodup_firstSeen l)]
  congr 1
  ext a
  simp [mem_firstSeen]

/-! ## The map -/

theorem mapGet_eq_none (m : List (String × AMI)) (k : String) :
    mapGet m k = none ↔ k ∉ m.map (fun e => e.1) := by
  induction m with
  | nil => simp [mapGet]
  | cons e m ih =>
    obtain ⟨k', v⟩ := e
    by_cases h : k' = k
    · simp [mapGet, h]
    · simp [mapGet, h, ih, Ne.symm h]

theorem mapGet_mem (m : List (String × AMI)) (k : String) (v : AMI) (h : mapGet m k = some v) :
    (k, v) ∈ m := by
  induction m with
  | nil => simp [mapGet] at h
  | cons e m ih =>
    obtain ⟨k', v'⟩ := e
    by_cases hk : k' = k
    · simp [mapGet, hk] at h
      simp [hk, h]
    · simp [mapGet, hk] at h
      exact List.mem_cons_of_mem _ (ih h)

theorem mapSet_fresh (m : List (String × AMI)) (k : String) (v : AMI)
    (h : k ∉ m.map (fun e => e.1)) : mapSet m k v = m ++ [(k, v)] := by
  induction m with
  | nil => simp [mapSet]
  | cons e m ih =>
    obtain ⟨k', v'⟩ := e
    simp only [List.map_cons, List.mem_cons, not_or] at h
    simp [mapSet, Ne.symm h.1, ih h.2]

theorem mapSet_keys (m : List (String × AMI)) (k : String) (v : AMI)
    (h : k ∈ m.map (fun e => e.1)) : (mapSet m k v).map (fun e => e.1) = m.map (fun e => e.1) := by
  induction m with
  | nil => simp at h
  | cons e m ih =>
    obtain ⟨k', v'⟩ := e
    by_cases hk : k' = k
    · simp [mapSet, hk]
    · simp only [List.map_cons, List.mem_cons] at h
      rcases h with h | h
      · exact absurd h.symm hk
      · simp [mapSet, hk, ih h]

theorem mem_mapSet (m : List (String × AMI)) (k : String) (v : AMI)
    (hn : (m.map (fun e => e.1)).Nodup) (e : String × AMI) (he : e ∈ mapSet m k v) :
    e = (k, v) ∨ (e.1 ≠ k ∧ e ∈ m) := by
  induction m with
  | nil => simp [mapSet] at he; exact Or.inl he
  | cons e' m ih =>
    obtain ⟨k', v'⟩ := e'
    simp only [List.map_cons, List.nodup_cons] at hn
    by_cases hk : k' = k
    · simp only [mapSet, hk, if_true, List.mem_cons] at he
      rcases he with he | he
      · exact Or.inl he
      · refine Or.inr ⟨?_, List.mem_cons_of_mem _ he⟩
        intro h1
        exact hn.1 (List.mem_map.2 ⟨e, he, by rw [h1, hk]⟩)
    · simp only [mapSet, hk, if_false, List.mem_cons] at he
      rcases he with he | he
      · exact Or.inr ⟨by rw [he]; exact hk, by rw [he]; exact List.mem_cons_self _ _⟩
      · rcases ih hn.2 he with h | h
        · exact Or.inl h
        · exact Or.inr ⟨h.1, List.mem_cons_of_mem _ h.2⟩

/-! ## The iteration order of a map -/

theorem getD_cons_eraseIdx_perm {α : Type} (l : List α) (i : Nat) (d : α) (h : i < l.length) :
    (l.getD i d :: l.eraseIdx i).Perm l := by
  induction l generalizing i with
  | nil => simp at h
  | cons x xs ih =>
    cases i with
    | zero => simp
    | succ i =>
      have hi : i < xs.length := by simpa using h
      simp only [List.getD_cons_succ, List.eraseIdx_cons_succ]
      exact (List.Perm.swap _ _ _).trans ((ih i hi).cons x)

theorem rangeOrder_perm {α : Type} (order : List Nat) (l : List α) :
    (rangeOrder order l).Perm l := by
  induction order generalizing l with
  | nil => cases l <;> simp [rangeOrder]
  | cons k ks ih =>
    cases l with
    | nil => simp [rangeOrder]
    | cons x xs =>
      simp only [rangeOrder]
      have hlt : k % (xs.length + 1) < (x :: xs).length := by
        simpa using Nat.mod_lt k (Nat.succ_pos xs.length)
      exact ((ih _).cons _).trans (getD_cons_eraseIdx_perm (x :: xs) _ x hlt)

/-! ## One iteration of the loop -/

theorem GetAMIInfo_eq {σ : Type} (c : ec2.Client σ) (w : σ) (amiID : String) :
    GetAMIInfo c w amiID = c.DescribeImages w { ImageIds := [amiID] } := by
  unfold GetAMIInfo
  rcases h : c.DescribeImages w { ImageIds := [amiID] } with ⟨r, w'⟩
  cases r <;> simp only [h]

/-- The five ways through the loop body. -/
theorem loopBody_cases {σ : Type} (c : ec2.Client σ) (s : LoopState σ) (a : types.Instance) :
    (∃ v, mapGet s.amiInfo (imageIdOf a) = some v ∧ a.InstanceId = none ∧
        loopBody c s a = Flow.panic s) ∨
    (∃ v i, mapGet s.amiInfo (imageIdOf a) = some v ∧ a.InstanceId = some i ∧
        loopBody c s a = Flow.next { s with
          amiInfo := mapSet s.amiInfo (imageIdOf a)
            { v with InstanceIds := v.InstanceIds ++ [i] } }) ∨
    (∃ err w', mapGet s.amiInfo (imageIdOf a) = none ∧
        GetAMIInfo c s.world (imageIdOf a) = (ec2.Reply.error err, w') ∧
        loopBody c s a = Flow.ret err { s with
          calls := s.calls ++ [(imageIdOf a, ec2.Reply.error err)], world := w' }) ∨
    (∃ image w', mapGet s.amiInfo (imageIdOf a) = none ∧
        GetAMIInfo c s.world (imageIdOf a) = (ec2.Reply.ok image, w') ∧ a.InstanceId = none ∧
        loopBody c s a = Flow.panic { s with
          calls := s.calls ++ [(imageIdOf a, ec2.Reply.ok image)], world := w' }) ∨
    (∃ image w' i, mapGet s.amiInfo (imageIdOf a) = none ∧
        GetAMIInfo c s.world (imageIdOf a) = (ec2.Reply.ok image, w') ∧ a.InstanceId = some i ∧
        loopBody c s a = Flow.next
          { amiInfo := mapSet s.amiInfo (imageIdOf a)
              { AmiID := imageIdOf a, InstanceIds := [i], Image := imageInfoOf image }
            calls := s.calls ++ [(imageIdOf a, ec2.Reply.ok image)], world := w' }) := by
  unfold loopBody
  simp only [imageIdOf]
  cases hg : mapGet s.amiInfo (aws.ToString a.ImageId) with
  | some v =>
    cases hi : a.InstanceId with
    | none => exact Or.inl ⟨v, rfl, rfl, rfl⟩
    | some i => exact Or.inr (Or.inl ⟨v, i, rfl, rfl, rfl⟩)
  | none =>
    rcases hr : GetAMIInfo c s.world (aws.ToString a.ImageId) with ⟨r, w'⟩
    cases r with
    | error err => exact Or.inr (Or.inr (Or.inl ⟨err, w', rfl, rfl, rfl⟩))
    | ok image =>
      cases hi : a.InstanceId with
      | none => exact Or.inr (Or.inr (Or.inr (Or.inl ⟨image, w', rfl, rfl, rfl, rfl⟩)))
      | some i => exact Or.inr (Or.inr (Or.inr (Or.inr ⟨image, w', i, rfl, rfl, rfl, rfl⟩)))

theorem runLoop_snoc {σ : Type} (c : ec2.Client σ) (w : σ) (l : List types.Instance)
    (a : types.Instance) : runLoop c w (l ++ [a]) = loopStep c (runLoop c w l) a := by
  simp [runLoop, List.foldl_append]

theorem runLoop_nil {σ : Type} (c : ec2.Client σ) (w : σ) :
    runLoop c w [] = Flow.next { amiInfo := [], calls := [], world := w } := rfl

/-- The nested loops of `GatherAMIInfo` visit the instances of `allInstances` in order. -/
theorem nested_eq_runLoop {σ : Type} (c : ec2.Client σ) (w : σ)
    (instances : ec2.DescribeInstancesOutput) :
    instances.Reservations.foldl
      (fun fl reservation => reservation.Instances.foldl (loopStep c) fl)
      (Flow.next { amiInfo := [], calls := [], world := w }) =
    runLoop c w (allInstances instances) := by
  unfold runLoop allInstances
  generalize (Flow.next { amiInfo := [], calls := [], world := w } : Flow σ) = fl
  induction instances.Reservations generalizing fl with
  | nil => rfl
  | cons r rs ih =>
    simp only [List.foldl_cons, List.flatMap_cons, List.foldl_append]
    exact ih _

/-- A run of `GatherAMIInfo` in terms of the flat loop. -/
theorem GatherAMIInfo_eq {σ : Type} (c : ec2.Client σ) (w : σ) (order : List Nat)
    (instances : ec2.DescribeInstancesOutput) :
    GatherAMIInfo c w order instances =
      match runLoop c w (allInstances instances) with
      | .next s =>
        { outcome := .ret (rangeOrder order (s.amiInfo.map (fun e => e.2))) none
          calls := s.calls, world := s.world }
      | .ret err s => { outcome := .ret [] (some err), calls := s.calls, world := s.world }
      | .panic s => { outcome := .panic, calls := s.calls, world := s.world } := by
  unfold GatherAMIInfo
  simp only [nested_eq_runLoop]

/-! ## The loop invariant -/

theorem Inv.nil {σ : Type} (w : σ) :
    Inv [] ({ amiInfo := [], calls := [], world := w } : LoopState σ) :=
  ⟨rfl, rfl, by simp, by simp⟩

theorem Inv.key_iff {σ : Type} {l : List types.Instance} {s : LoopState σ} (h : Inv l s)
    (k : String) : mapGet s.amiInfo k = none ↔ k ∉ l.map imageIdOf := by
  rw [mapGet_eq_none, h.keys, mem_firstSeen]

/-- The invariant is kept by an iteration that stays in the loop. -/
theorem Inv.step {σ : Type} {c : ec2.Client σ} {l : List types.Instance} {s s' : LoopState σ}
    {a : types.Instance} (h : Inv l s) (hs : loopBody c s a = Flow.next s') :
    Inv (l ++ [a]) s' := by
  rcases loopBody_cases c s a with ⟨v, _, _, e⟩ | ⟨v, i, hg, hi, e⟩ | ⟨err, w', _, _, e⟩ |
    ⟨image, w', _, _, _, e⟩ | ⟨image, w', i, hg, _, hi, e⟩
  · rw [e] at hs; cases hs
  · rw [e] at hs
    injection hs with hs
    subst hs
    have hmem : imageIdOf a ∈ l.map imageIdOf := by
      by_contra hc
      rw [(h.key_iff _).2 hc] at hg
      cases hg
    have hkeys : (s.amiInfo.map (fun e => e.1)).Nodup := by
      rw [h.keys]; exact nodup_firstSeen _
    have hv := h.entries _ (mapGet_mem _ _ _ hg)
    refine ⟨?_, ?_, h.answered, ?_⟩
    · show (mapSet s.amiInfo _ _).map _ = _
      rw [mapSet_keys _ _ _ (by rw [h.keys, mem_firstSeen]; exact hmem), h.keys,
        List.map_append, List.map_singleton, firstSeen_snoc, if_pos hmem]
    · show s.calls.map _ = _
      rw [h.asked, List.map_append, List.map_singleton, firstSeen_snoc, if_pos hmem]
    · intro e he
      rcases mem_mapSet _ _ _ hkeys e he with he | ⟨hne, he⟩
      · subst he
        refine ⟨hv.1, ?_, hv.2.2⟩
        simp only [List.map_append, List.map_singleton, List.filter_append, hv.2.1]
        simp [List.filter_cons, hi]
      · obtain ⟨h1, h2, h3⟩ := h.entries e he
        refine ⟨h1, ?_, h3⟩
        rw [h2, List.filter_append]
        simp [List.filter_cons, Ne.symm hne]
  · rw [e] at hs; cases hs
  · rw [e] at hs; cases hs
  · rw [e] at hs
    injection hs with hs
    subst hs
    have hnot : imageIdOf a ∉ l.map imageIdOf := (h.key_iff _).1 hg
    have hfresh : imageIdOf a ∉ s.amiInfo.map (fun e => e.1) := by
      rw [h.keys, mem_firstSeen]; exact hnot
    have hfs : firstSeen ((l ++ [a]).map imageIdOf) =
        firstSeen (l.map imageIdOf) ++ [imageIdOf a] := by
      rw [List.map_append, List.map_singleton, firstSeen_snoc, if_neg hnot]
    refine ⟨?_, ?_, ?_, ?_⟩
    · show (mapSet s.amiInfo _ _).map _ = _
      rw [hfs, mapSet_fresh _ _ _ hfresh, List.map_append, h.keys]
      rfl
    · show (s.calls ++ _).map _ = _
      rw [hfs, List.map_append, h.asked]
      rfl
    · intro call hcall
      rcases List.mem_append.1 hcall with hc | hc
      · exact h.answered call hc
      · rw [List.mem_singleton.1 hc]; exact ⟨image, rfl⟩
    · intro e he
      dsimp only at he
      rw [mapSet_fresh _ _ _ hfresh] at he
      rcases List.mem_append.1 he with he | he
      · obtain ⟨h1, h2, image', h3, h4⟩ := h.entries e he
        have hne : imageIdOf a ≠ e.1 := by
          intro hc
          exact hfresh (hc ▸ List.mem_map.2 ⟨e, he, rfl⟩)
        refine ⟨h1, ?_, image', List.mem_append_left _ h3, h4⟩
        rw [h2, List.filter_append]
        simp [List.filter_cons, hne]
      · rw [List.mem_singleton.1 he]
        refine ⟨rfl, ?_, image, List.mem_append_right _ (List.mem_singleton.2 rfl), rfl⟩
        have hnone : l.filter (fun inst => decide (imageIdOf inst = imageIdOf a)) = [] := by
          rw [List.filter_eq_nil_iff]
          intro x hx hc
          exact hnot (List.mem_map.2 ⟨x, hx, of_decide_eq_true hc⟩)
        simp [List.filter_append, hnone, List.filter_cons, hi]

/-- While the loop has not been left the invariant holds. -/
theorem runLoop_next {σ : Type} (c : ec2.Client σ) (w : σ) (l : List types.Instance) :
    ∀ s, runLoop c w l = Flow.next s → Inv l s := by
  induction l using List.reverseRecOn with
  | nil =>
    intro s hs
    rw [runLoop_nil] at hs
    injection hs with hs
    subst hs
    exact Inv.nil w
  | append_singleton l a ih =>
    intro s hs
    rw [runLoop_snoc] at hs
    cases hl : runLoop c w l with
    | next s0 =>
      rw [hl] at hs
      exact (ih s0 hl).step hs
    | ret err s0 => rw [hl] at hs; cases hs
    | panic s0 => rw [hl] at hs; cases hs

/-- A run that returned an error left the loop at an instance whose image had
not been seen, on the failing answer of the lookup made for it. -/
theorem runLoop_ret {σ : Type} (c : ec2.Client σ) (w : σ) (l : List types.Instance) :
    ∀ err s, runLoop c w l = Flow.ret err s →
      ∃ pre a post s0, l = pre ++ a :: post ∧ runLoop c w pre = Flow.next s0 ∧
        imageIdOf a ∉ pre.map imageIdOf ∧
        s.calls = s0.calls ++ [(imageIdOf a, ec2.Reply.error err)] := by
  induction l using List.reverseRecOn with
  | nil =>
    intro err s hs
    rw [runLoop_nil] at hs
    cases hs
  | append_singleton l a ih =>
    intro err s hs
    rw [runLoop_snoc] at hs
    cases hl : runLoop c w l with
    | next s0 =>
      rw [hl] at hs
      have hinv := runLoop_next c w l s0 hl
      change loopBody c s0 a = _ at hs
      rcases loopBody_cases c s0 a with ⟨v, _, _, e⟩ | ⟨v, i, _, _, e⟩ | ⟨err', w', hg, _, e⟩ |
        ⟨image, w', _, _, _, e⟩ | ⟨image, w', i, _, _, _, e⟩
      · rw [e] at hs; cases hs
      · rw [e] at hs; cases hs
      · rw [e] at hs
        injection hs with h1 h2
        subst h1 h2
        exact ⟨l, a, [], s0, rfl, hl, (hinv.key_iff _).1 hg, rfl⟩
      · rw [e] at hs; cases hs
      · rw [e] at hs; cases hs
    | ret err' s' =>
      rw [hl] at hs
      change Flow.ret err' s' = _ at hs
      injection hs with h1 h2
      subst h1 h2
      obtain ⟨pre, x, post, s0, h1, h2, h3, h4⟩ := ih _ _ hl
      exact ⟨pre, x, post ++ [a], s0, by rw [h1]; simp, h2, h3, h4⟩
    | panic s' => rw [hl] at hs; cases hs

/-- A run that panicked left the loop at an instance without an instance
identifier, after at most one more answered lookup. -/
theorem runLoop_panic {σ : Type} (c : ec2.Client σ) (w : σ) (l : List types.Instance) :
    ∀ s, runLoop c w l = Flow.panic s →
      ∃ pre a post s0, l = pre ++ a :: post ∧ runLoop c w pre = Flow.next s0 ∧
        a.InstanceId = none ∧
        (s.calls = s0.calls ∨ (imageIdOf a ∉ pre.map imageIdOf ∧
          ∃ image, s.calls = s0.calls ++ [(imageIdOf a, ec2.Reply.ok image)])) := by
  induction l using List.reverseRecOn with
  | nil =>
    intro s hs
    rw [runLoop_nil] at hs
    cases hs
  | append_singleton l a ih =>
    intro s hs
    rw [runLoop_snoc] at hs
    cases hl : runLoop c w l with
    | next s0 =>
      rw [hl] at hs
      have hinv := runLoop_next c w l s0 hl
      change loopBody c s0 a = _ at hs
      rcases loopBody_cases c s0 a with ⟨v, _, hi, e⟩ | ⟨v, i, _, _, e⟩ | ⟨err', w', _, _, e⟩ |
        ⟨image, w', hg, _, hi, e⟩ | ⟨image, w', i, _, _, _, e⟩
      · rw [e] at hs
        injection hs with h1
        subst h1
        exact ⟨l, a, [], s0, rfl, hl, hi, Or.inl rfl⟩
      · rw [e] at hs; cases hs
      · rw [e] at hs; cases hs
      · rw [e] at hs
        injection hs with h1
        subst h1
        exact ⟨l, a, [], s0, rfl, hl, hi, Or.inr ⟨(hinv.key_iff _).1 hg, image, rfl⟩⟩
      · rw [e] at hs; cases hs
    | ret err' s' => rw [hl] at hs; cases hs
    | panic s' =>
      rw [hl] at hs
      change Flow.panic s' = _ at hs
      injection hs with h1
      subst h1
      obtain ⟨pre, x, post, s0, h1, h2, h3, h4⟩ := ih _ hl
      exact ⟨pre, x, post ++ [a], s0, by rw [h1]; simp, h2, h3, h4⟩

/-- Whatever way the loop ends, the identifiers it asked for are an initial
segment of the distinct image identifiers in first-occurrence order. -/
theorem runLoop_asked_prefix {σ : Type} (c : ec2.Client σ) (w : σ) (l : List types.Instance) :
    (runLoop c w l).state.calls.map (fun call => call.1) <+: firstSeen (l.map imageIdOf) := by
  cases hl : runLoop c w l with
  | next s =>
    rw [Flow.state, (runLoop_next c w l s hl).asked]
  | ret err s =>
    obtain ⟨pre, a, post, s0, h1, h2, h3, h4⟩ := runLoop_ret c w l err s hl
    have hinv := runLoop_next c w pre s0 h2
    rw [Flow.state, h4, List.map_append, hinv.asked, h1, List.map_append, List.map_cons]
    exact firstSeen_snoc_prefix _ _ _ h3
  | panic s =>
    obtain ⟨pre, a, post, s0, h1, h2, _, h4⟩ := runLoop_panic c w l s hl
    have hinv := runLoop_next c w pre s0 h2
    rcases h4 with h4 | ⟨h3, image, h4⟩
    · rw [Flow.state, h4, hinv.asked, h1, List.map_append]
      exact firstSeen_prefix _ _
    · rw [Flow.state, h4, List.map_append, hinv.asked, h1, List.map_append, List.map_cons]
      exact firstSeen_snoc_prefix _ _ _ h3

/-- The calls of a run of `GatherAMIInfo` are those of the flat loop. -/
theorem GatherAMIInfo_calls {σ : Type} (c : ec2.Client σ) (w : σ) (order : List Nat)
    (instances : ec2.DescribeInstancesOutput) :
    (GatherAMIInfo c w order instances).calls =
      (runLoop c w (allInstances instances)).state.calls := by
  rw [GatherAMIInfo_eq]
  cases runLoop c w (allInstances instances) <;> rfl

/-- A run of `GatherAMIInfo` returns without error exactly when the loop is not left. -/
theorem GatherAMIInfo_ok {σ : Type} (c : ec2.Client σ) (w : σ) (order : List Nat)
    (instances : ec2.DescribeInstancesOutput) (amis : List AMI)
    (h : (GatherAMIInfo c w order instances).outcome = Outcome.ret amis none) :
    ∃ s, runLoop c w (allInstances instances) = Flow.next s ∧
      Inv (allInstances instances) s ∧
      amis = rangeOrder order (s.amiInfo.map (fun e => e.2)) ∧
      (GatherAMIInfo c w order instances).calls = s.calls := by
  have hc := GatherAMIInfo_calls c w order instances
  rw [GatherAMIInfo_eq] at h
  cases hl : runLoop c w (allInstances instances) with
  | next s =>
    rw [hl] at h hc
    injection h with h1
    exact ⟨s, rfl, runLoop_next c w _ s hl, h1.symm, hc⟩
  | ret err s => rw [hl] at h; cases h
  | panic s => rw [hl] at h; cases h

/-- The groups returned on success are the values of the map, in some order. -/
theorem mem_amis_iff {σ : Type} {s : LoopState σ} (order : List Nat) (g : AMI) :
    g ∈ rangeOrder order (s.amiInfo.map (fun e => e.2)) ↔ ∃ e ∈ s.amiInfo, e.2 = g := by
  rw [(rangeOrder_perm order _).mem_iff, List.mem_map]

/-! ## What a run of `GatherAMIInfo` returns -/

/-- A run that returns an error returns no groups, and the loop was left by `return nil, err`. -/
theorem GatherAMIInfo_err {σ : Type} (c : ec2.Client σ) (w : σ) (order : List Nat)
    (instances : ec2.DescribeInstancesOutput) (amis : List AMI) (err : GoError)
    (h : (GatherAMIInfo c w order instances).outcome = Outcome.ret amis (some err)) :
    amis = [] ∧ ∃ s, runLoop c w (allInstances instances) = Flow.ret err s := by
  rw [GatherAMIInfo_eq] at h
  cases hl : runLoop c w (allInstances instances) with
  | next s => rw [hl] at h; cases h
  | ret err' s =>
    rw [hl] at h
    injection h with h1 h2
    injection h2 with h2
    exact ⟨h1.symm, s, by rw [h2]⟩
  | panic s => rw [hl] at h; cases h

/-- On success the image identifiers of the groups are, up to order, the distinct
image identifiers of the input. -/
theorem success_amiIDs {σ : Type} (c : ec2.Client σ) (w : σ) (order : List Nat)
    (instances : ec2.DescribeInstancesOutput) (amis : List AMI)
    (h : (GatherAMIInfo c w order instances).outcome = Outcome.ret amis none) :
    (amis.map (fun g => g.AmiID)).Perm (firstSeen (imageIds instances)) := by
  obtain ⟨s, -, hinv, hamis, -⟩ := GatherAMIInfo_ok c w order instances amis h
  have h1 : (s.amiInfo.map (fun e => e.2)).map (fun g => g.AmiID) =
      firstSeen (imageIds instances) := by
    rw [imageIds, ← hinv.keys, List.map_map]
    exact List.map_congr_left (fun e he => (hinv.entries e he).1)
  rw [hamis, ← h1]
  exact (rangeOrder_perm order _).map _

/-- On success every group is an entry of the map, with the facts the invariant
gives about it. -/
theorem success_group {σ : Type} (c : ec2.Client σ) (w : σ) (order : List Nat)
    (instances : ec2.DescribeInstancesOutput) (amis : List AMI)
    (h : (GatherAMIInfo c w order instances).outcome = Outcome.ret amis none)
    (g : AMI) (hg : g ∈ amis) :
    g.AmiID ∈ imageIds instances ∧
    g.InstanceIds.map some = (instancesOf instances g.AmiID).map (fun inst => inst.InstanceId) ∧
    ∃ image, (g.AmiID, ec2.Reply.ok image) ∈ (GatherAMIInfo c w order instances).calls ∧
      g.Image = imageInfoOf image := by
  obtain ⟨s, -, hinv, hamis, hcalls⟩ := GatherAMIInfo_ok c w order instances amis h
  rw [hamis, mem_amis_iff] at hg
  obtain ⟨e, he, rfl⟩ := hg
  obtain ⟨h1, h2, h3⟩ := hinv.entries e he
  have hk : e.1 ∈ imageIds instances := by
    rw [imageIds, ← mem_firstSeen, ← hinv.keys]
    exact List.mem_map.2 ⟨e, he, rfl⟩
  rw [hcalls, h1]
  exact ⟨hk, h2, h3⟩

/-- C1, as amended. A run of `GatherAMIInfo` that returns without error has
issued exactly as many `GetAMIInfo` calls as the instances of its input (taken
over all reservations) reference distinct image identifiers, whatever the
number of instances. -/
theorem GatherAMIInfo_calls_count {σ : Type} (c : ec2.Client σ) (w : σ) (order : List Nat)
    (instances : ec2.DescribeInstancesOutput) (amis : List AMI)
    (h : (GatherAMIInfo c w order instances).outcome = Outcome.ret amis none) :
    (GatherAMIInfo c w order instances).calls.length =
      ((allInstances instances).map (fun inst => aws.ToString inst.ImageId)).toFinset.card := by
  obtain ⟨s, -, hinv, -, hcalls⟩ := GatherAMIInfo_ok c w order instances amis h
  rw [hcalls, ← List.length_map s.calls (fun call => call.1), hinv.asked, length_firstSeen]
  rfl

/-- C2, as amended. Every group of the list `GatherAMIInfo` returns has at least
one instance identifier; it holds an identifier twice exactly when two input
instances of its image carry the same identifier, so it has no duplicate when
the instance identifiers of the input are pairwise distinct. -/
theorem group_instanceIds_nonempty {σ : Type} (c : ec2.Client σ) (w : σ) (order : List Nat)
    (instances : ec2.DescribeInstancesOutput) (amis : List AMI) (err : Option GoError)
    (h : (GatherAMIInfo c w order instances).outcome = Outcome.ret amis err)
    (g : AMI) (hg : g ∈ amis) :
    1 ≤ g.InstanceIds.length ∧
    (g.InstanceIds.Nodup ↔
      (((allInstances instances).filter
        (fun inst => decide (aws.ToString inst.ImageId = g.AmiID))).map
          (fun inst => inst.InstanceId)).Nodup) ∧
    (((allInstances instances).map (fun inst => inst.InstanceId)).Nodup →
      g.InstanceIds.Nodup) := by
  change 1 ≤ g.InstanceIds.length ∧
    (g.InstanceIds.Nodup ↔
      ((instancesOf instances g.AmiID).map (fun inst => inst.InstanceId)).Nodup) ∧
    (((allInstances instances).map (fun inst => inst.InstanceId)).Nodup →
      g.InstanceIds.Nodup)
  cases err with
  | some e =>
    rw [(GatherAMIInfo_err c w order instances amis e h).1] at hg
    cases hg
  | none =>
    obtain ⟨hk, hids, -⟩ := success_group c w order instances amis h g hg
    have hiff : g.InstanceIds.Nodup ↔
        ((instancesOf instances g.AmiID).map (fun inst => inst.InstanceId)).Nodup := by
      rw [← hids, List.nodup_map_iff (Option.some_injective _)]
    refine ⟨?_, hiff, ?_⟩
    · obtain ⟨x, hx, hxk⟩ := List.mem_map.1 hk
      have hmem : x ∈ instancesOf instances g.AmiID :=
        List.mem_filter.2 ⟨hx, decide_eq_true hxk⟩
      have hlen : g.InstanceIds.length = (instancesOf instances g.AmiID).length := by
        rw [← List.length_map g.InstanceIds some, hids, List.length_map]
      rw [hlen]
      exact List.length_pos_of_mem hmem
    · intro hall
      rw [hiff]
      exact hall.sublist ((List.filter_sublist _).map _)

/-- C3. If a `GetAMIInfo` call of a run fails with `err`, the run returns
`nil, err`, the failing call is the last one made and every call before it was
answered; and a run returns an error only when its last call failed with it. -/
theorem GatherAMIInfo_error_propagation {σ : Type} (c : ec2.Client σ) (w : σ)
    (order : List Nat) (instances : ec2.DescribeInstancesOutput) :
    (∀ id err, (id, ec2.Reply.error err) ∈ (GatherAMIInfo c w order instances).calls →
      (GatherAMIInfo c w order instances).outcome = Outcome.ret [] (some err) ∧
      ∃ before, (GatherAMIInfo c w order instances).calls =
          before ++ [(id, ec2.Reply.error err)] ∧
        ∀ call ∈ before, ∃ image, call.2 = ec2.Reply.ok image) ∧
    (∀ amis err, (GatherAMIInfo c w order instances).outcome = Outcome.ret amis (some err) →
      amis = [] ∧ ∃ id before, (GatherAMIInfo c w order instances).calls =
        before ++ [(id, ec2.Reply.error err)]) := by
  rw [GatherAMIInfo_eq]
  cases hl : runLoop c w (allInstances instances) with
  | next s =>
    have hinv := runLoop_next c w _ s hl
    refine ⟨?_, ?_⟩
    · intro id err hmem
      obtain ⟨image, himage⟩ := hinv.answered _ hmem
      cases himage
    · intro amis err h
      cases h
  | ret err s =>
    obtain ⟨pre, a, post, s0, -, h2, -, h4⟩ := runLoop_ret c w _ err s hl
    have hinv := runLoop_next c w pre s0 h2
    refine ⟨?_, ?_⟩
    · intro id err' hmem
      dsimp only at hmem ⊢
      rw [h4] at hmem ⊢
      rcases List.mem_append.1 hmem with hm | hm
      · obtain ⟨image, himage⟩ := hinv.answered _ hm
        cases himage
      · have hm := List.mem_singleton.1 hm
        injection hm with h5 h6
        injection h6 with h6
        subst h5 h6
        exact ⟨rfl, s0.calls, rfl, hinv.answered⟩
    · intro amis err' h
      injection h with h5 h6
      injection h6 with h6
      subst h5 h6
      exact ⟨rfl, imageIdOf a, s0.calls, h4⟩
  | panic s =>
    obtain ⟨pre, a, post, s0, -, h2, -, h4⟩ := runLoop_panic c w _ s hl
    have hinv := runLoop_next c w pre s0 h2
    refine ⟨?_, ?_⟩
    · intro id err hmem
      dsimp only at hmem
      rcases h4 with h4 | ⟨-, image, h4⟩
      · rw [h4] at hmem
        obtain ⟨image, himage⟩ := hinv.answered _ hmem
        cases himage
      · rw [h4] at hmem
        rcases List.mem_append.1 hmem with hm | hm
        · obtain ⟨image, himage⟩ := hinv.answered _ hm
          cases himage
        · have hm := List.mem_singleton.1 hm
          injection hm with h5 h6
          cases h6
    · intro amis err h
      cases h

/-- In a list whose keys are pairwise distinct, the entries with the key of a
member are that member alone. -/
theorem filter_key_eq_singleton {α : Type} (f : α → String) (l : List α)
    (hn : (l.map f).Nodup) (x : α) (hx : x ∈ l) :
    l.filter (fun y => decide (f y = f x)) = [x] := by
  induction l with
  | nil => cases hx
  | cons y ys ih =>
    simp only [List.map_cons, List.nodup_cons] at hn
    rcases List.mem_cons.1 hx with hxy | hxy
    · subst hxy
      have hnil : ys.filter (fun y => decide (f y = f x)) = [] := by
        rw [List.filter_eq_nil_iff]
        intro z hz hc
        exact hn.1 (List.mem_map.2 ⟨z, hz, of_decide_eq_true hc⟩)
      simp [List.filter_cons, hnil]
    · have hne : f y ≠ f x := fun hc => hn.1 (hc ▸ List.mem_map_of_mem f hxy)
      simp [List.filter_cons, hne, ih hn.2 hxy]

theorem rangeOrder_singleton {α : Type} (order : List Nat) (x : α) :
    rangeOrder order [x] = [x] := by
  cases order with
  | nil => rfl
  | cons k ks => cases ks <;> simp [rangeOrder, Nat.mod_one]

/-- C4. On success every returned group holds the instance identifiers of
exactly the input instances whose image identifier is the group's, in input
order; and two instances that share an image identifier are in one and the
same group, the one that comes first in the input first. -/
theorem group_instanceIds_eq {σ : Type} (c : ec2.Client σ) (w : σ) (order : List Nat)
    (instances : ec2.DescribeInstancesOutput) (amis : List AMI)
    (h : (GatherAMIInfo c w order instances).outcome = Outcome.ret amis none) :
    (∀ g ∈ amis, g.InstanceIds.map some =
      ((allInstances instances).filter (fun inst => decide (aws.ToString inst.ImageId = g.AmiID))).map
        (fun inst => inst.InstanceId)) ∧
    (∀ pre mid post a b, allInstances instances = pre ++ a :: (mid ++ b :: post) →
      aws.ToString a.ImageId = aws.ToString b.ImageId →
      ∃ g ∈ amis, g.AmiID = aws.ToString a.ImageId ∧
        (∀ g' ∈ amis, g'.AmiID = aws.ToString a.ImageId → g' = g) ∧
        ∃ ia ib, a.InstanceId = some ia ∧ b.InstanceId = some ib ∧
          [ia, ib].Sublist g.InstanceIds) := by
  have hperm := success_amiIDs c w order instances amis h
  refine ⟨fun g hg => (success_group c w order instances amis h g hg).2.1, ?_⟩
  intro pre mid post a b hall hab
  have hak : imageIdOf a ∈ (amis.map (fun g => g.AmiID)) := by
    rw [hperm.mem_iff, mem_firstSeen, imageIds, hall]
    simp
  obtain ⟨g, hg, hgk⟩ := List.mem_map.1 hak
  have huniq : ∀ g' ∈ amis, g'.AmiID = aws.ToString a.ImageId → g' = g := by
    intro g' hg' hk
    exact List.inj_on_of_nodup_map (hperm.nodup_iff.2 (nodup_firstSeen _)) hg' hg
      (hk.trans hgk.symm)
  refine ⟨g, hg, hgk, huniq, ?_⟩
  have hids := (success_group c w order instances amis h g hg).2.1
  have hsub : [a, b].Sublist (instancesOf instances g.AmiID) := by
    have h1 : [a, b].Sublist (allInstances instances) := by
      rw [hall]
      refine List.Sublist.trans ?_ (List.sublist_append_right _ _)
      refine List.Sublist.cons₂ a ?_
      refine List.Sublist.trans ?_ (List.sublist_append_right _ _)
      exact List.Sublist.cons₂ b (List.nil_sublist _)
    have h2 := h1.filter (fun inst => decide (imageIdOf inst = g.AmiID))
    have h3 : [a, b].filter (fun inst => decide (imageIdOf inst = g.AmiID)) = [a, b] := by
      rw [List.filter_eq_self]
      intro x hx
      rcases List.mem_cons.1 hx with hx | hx
      · rw [hx]; exact decide_eq_true hgk.symm
      · rw [List.mem_singleton.1 hx]
        exact decide_eq_true (hab.symm.trans hgk.symm)
    rw [h3] at h2
    exact h2
  have hsub2 : [a.InstanceId, b.InstanceId].Sublist (g.InstanceIds.map some) := by
    rw [hids]
    exact hsub.map (fun inst => inst.InstanceId)
  obtain ⟨l', hl', heq⟩ := List.sublist_map_iff.1 hsub2
  match l', hl', heq with
  | [ia, ib], hl', heq =>
    simp only [List.map_cons, List.map_nil, List.cons.injEq, and_true] at heq
    exact ⟨ia, ib, heq.1, heq.2, hl'⟩
  | [], _, heq => simp at heq
  | [_], _, heq => simp at heq
  | _ :: _ :: _ :: _, _, heq => simp at heq

/-- C5. On success the returned list has one group per distinct image
identifier of the input: as many groups as distinct identifiers, pairwise
distinct `AmiID`s, and the `AmiID`s are exactly the image identifiers the
input instances reference. -/
theorem groups_one_per_image {σ : Type} (c : ec2.Client σ) (w : σ) (order : List Nat)
    (instances : ec2.DescribeInstancesOutput) (amis : List AMI)
    (h : (GatherAMIInfo c w order instances).outcome = Outcome.ret amis none) :
    amis.length = ((allInstances instances).map (fun inst => aws.ToString inst.ImageId)).toFinset.card ∧
    (amis.map (fun g => g.AmiID)).Nodup ∧
    (∀ k, k ∈ amis.map (fun g => g.AmiID) ↔
      ∃ inst ∈ allInstances instances, aws.ToString inst.ImageId = k) := by
  have hperm := success_amiIDs c w order instances amis h
  refine ⟨?_, hperm.nodup_iff.2 (nodup_firstSeen _), ?_⟩
  · rw [← List.length_map amis (fun g => g.AmiID), hperm.length_eq, length_firstSeen]
    rfl
  · intro k
    rw [hperm.mem_iff, mem_firstSeen, imageIds, List.mem_map]
    rfl

/-- C6. On success the metadata of every returned group comes from the one
answer `GetAMIInfo` gave for the group's image identifier: the description,
name, location and owner of the first image of that answer, a missing field
read as the empty string, and four empty strings when the answer has no image.
A single instance whose lookup answers one image yields exactly one group with
that instance and that image's four fields, and with an answer of no image the
one group with four empty strings, without error. -/
theorem group_image_metadata {σ : Type} (c : ec2.Client σ) (w : σ) (order : List Nat)
    (instances : ec2.DescribeInstancesOutput) (amis : List AMI)
    (h : (GatherAMIInfo c w order instances).outcome = Outcome.ret amis none) :
    (∀ g ∈ amis, ∃ image,
      (GatherAMIInfo c w order instances).calls.filter (fun call => decide (call.1 = g.AmiID)) =
        [(g.AmiID, ec2.Reply.ok image)] ∧
      (image.Images = [] → g.Image =
        { ImageDescription := "", ImageName := "", ImageLocation := "", OwnerID := "" }) ∧
      (∀ first rest, image.Images = first :: rest → g.Image =
        { ImageDescription := aws.ToString first.Description
          ImageName := aws.ToString first.Name
          ImageLocation := aws.ToString first.ImageLocation
          OwnerID := aws.ToString first.OwnerId })) ∧
    (∀ (A : Option String) (I : String) (img : types.Image) (w0 : σ),
      (c.DescribeImages w0 { ImageIds := [aws.ToString A] }).1 =
        ec2.Reply.ok { Images := [img] } →
      (GatherAMIInfo c w0 order
        { Reservations := [{ Instances := [{ ImageId := A, InstanceId := some I }] }] }).outcome =
        Outcome.ret
          [{ AmiID := aws.ToString A
             InstanceIds := [I]
             Image :=
              { ImageDescription := aws.ToString img.Description
                ImageName := aws.ToString img.Name
                ImageLocation := aws.ToString img.ImageLocation
                OwnerID := aws.ToString img.OwnerId } }] none) ∧
    (∀ (A : Option String) (I : String) (w0 : σ),
      (c.DescribeImages w0 { ImageIds := [aws.ToString A] }).1 =
        ec2.Reply.ok { Images := [] } →
      (GatherAMIInfo c w0 order
        { Reservations := [{ Instances := [{ ImageId := A, InstanceId := some I }] }] }).outcome =
        Outcome.ret
          [{ AmiID := aws.ToString A
             InstanceIds := [I]
             Image := { ImageDescription := "", ImageName := "", ImageLocation := "",
                        OwnerID := "" } }] none) := by
  refine ⟨?_, ?_, ?_⟩
  · intro g hg
    obtain ⟨-, -, image, hcall, himage⟩ := success_group c w order instances amis h g hg
    obtain ⟨s, -, hinv, -, hcalls⟩ := GatherAMIInfo_ok c w order instances amis h
    refine ⟨image, ?_, ?_, ?_⟩
    · rw [hcalls] at hcall ⊢
      have hn : (s.calls.map (fun call => call.1)).Nodup := by
        rw [hinv.asked]; exact nodup_firstSeen _
      exact filter_key_eq_singleton (fun call : Call => call.1) s.calls hn _ hcall
    · intro hnil
      rw [himage, imageInfoOf, hnil]
    · intro first rest hcons
      rw [himage, imageInfoOf, hcons]
  · intro A I img w0 hreply
    rcases hd : c.DescribeImages w0 { ImageIds := [aws.ToString A] } with ⟨r, w'⟩
    rw [hd] at hreply
    dsimp only at hreply
    subst hreply
    simp [GatherAMIInfo, loopStep, loopBody, mapGet, mapSet, GetAMIInfo_eq, hd, imageInfoOf,
      rangeOrder_singleton]
  · intro A I w0 hreply
    rcases hd : c.DescribeImages w0 { ImageIds := [aws.ToString A] } with ⟨r, w'⟩
    rw [hd] at hreply
    dsimp only at hreply
    subst hreply
    simp [GatherAMIInfo, loopStep, loopBody, mapGet, mapSet, GetAMIInfo_eq, hd, imageInfoOf,
      rangeOrder_singleton]

/-! ## `runApp` on a result without instances, and the calls of a run -/

/-- Every order of the entries is the visiting order under some oracle. -/
theorem rangeOrder_complete {α : Type} (l' l : List α) (h : l'.Perm l) :
    ∃ order, rangeOrder order l = l' := by
  induction l' generalizing l with
  | nil => exact ⟨[], by rw [h.nil_eq]; rfl⟩
  | cons x xs ih =>
    have hmem : x ∈ l := h.subset (List.mem_cons_self _ _)
    obtain ⟨i, hi, hx⟩ := List.getElem_of_mem hmem
    cases l with
    | nil => cases hmem
    | cons y ys =>
      have hget : (y :: ys).getD i y = x := by
        rw [List.getD_eq_getElem _ _ hi, hx]
      have hp : xs.Perm ((y :: ys).eraseIdx i) := by
        have h1 := getD_cons_eraseIdx_perm (y :: ys) i y hi
        rw [hget] at h1
        exact (h.trans h1.symm).cons_inv
      obtain ⟨ks, hks⟩ := ih _ hp
      have hmod : i % (ys.length + 1) = i := Nat.mod_eq_of_lt (by simpa using hi)
      exact ⟨i :: ks, by rw [rangeOrder, hmod, hget, hks]⟩

theorem rangeOrder_nil {α : Type} (order : List Nat) : rangeOrder order ([] : List α) = [] := by
  cases order <;> rfl

/-- C7, as amended. When the configuration loads and the instance lister
answers a result with zero instances in total, `runApp` makes no `GetAMIInfo`
call, prints nothing and returns an error: with no reservation at all
`GatherAMIInfo` is never invoked and the error is "no running instances were
found"; with reservations that hold no instance `GatherAMIInfo` is invoked and
the error is "no Amazon Machine Images (AMIs) were found for the running
instances". -/
theorem runApp_no_instances {σ : Type} (env : Env σ) (w w1 : σ)
    (instancesInfo : ec2.DescribeInstancesOutput)
    (hcfg : env.LoadDefaultConfig = none)
    (hlist : env.ec2Client.DescribeInstances w = (ec2.Reply.ok instancesInfo, w1))
    (hzero : allInstances instancesInfo = []) :
    (runApp env w).calls = [] ∧ (runApp env w).stdout = [] ∧
    (instancesInfo.Reservations = [] →
      (runApp env w).gathered = false ∧
      (runApp env w).result = some (some (GoError.new "no running instances were found"))) ∧
    (instancesInfo.Reservations ≠ [] →
      (runApp env w).gathered = true ∧
      (runApp env w).result = some (some (GoError.new
        "no Amazon Machine Images (AMIs) were found for the running instances"))) := by
  have hrun : GatherAMIInfo env.ec2Client w1 env.order instancesInfo =
      { outcome := Outcome.ret [] none, calls := [], world := w1 } := by
    rw [GatherAMIInfo_eq, hzero, runLoop_nil]
    simp only [List.map_nil, rangeOrder_nil]
  by_cases hres : instancesInfo.Reservations = []
  · have hrun' : runApp env w =
        { result := some (some (GoError.new "no running instances were found"))
          gathered := false, calls := [], stdout := [], world := w1 } := by
      simp [runApp, LoadAWSConfig, GetInstances, hcfg, hlist, hres]
    rw [hrun']
    exact ⟨rfl, rfl, fun _ => ⟨rfl, rfl⟩, fun h => absurd hres h⟩
  · have hlen : ¬ instancesInfo.Reservations.length = 0 := by
      intro h0
      exact hres (List.length_eq_zero.1 h0)
    have hrun' : runApp env w =
        { result := some (some (GoError.new
            "no Amazon Machine Images (AMIs) were found for the running instances"))
          gathered := true, calls := [], stdout := [], world := w1 } := by
      simp [runApp, LoadAWSConfig, GetInstances, hcfg, hlist, hlen, hrun]
    rw [hrun']
    exact ⟨rfl, rfl, fun h => absurd h hres, fun _ => ⟨rfl, rfl⟩⟩

/-- The calls of any run. `GatherAMIInfo` never asks `GetAMIInfo` twice for the
same image identifier and asks only for image identifiers of input instances:
the identifiers asked for are an initial segment of the distinct image
identifiers of the input in first-occurrence order, all of them when the run
returns without error, so the calls never outnumber the distinct image
identifiers, whichever way the run ends. -/
theorem resolver_calls_prefix {σ : Type} (c : ec2.Client σ) (w : σ) (order : List Nat)
    (instances : ec2.DescribeInstancesOutput) :
    (GatherAMIInfo c w order instances).calls.map (fun call => call.1) <+:
      firstSeen ((allInstances instances).map (fun inst => aws.ToString inst.ImageId)) ∧
    ((GatherAMIInfo c w order instances).calls.map (fun call => call.1)).Nodup ∧
    (∀ id ∈ (GatherAMIInfo c w order instances).calls.map (fun call => call.1),
      ∃ inst ∈ allInstances instances, aws.ToString inst.ImageId = id) ∧
    (GatherAMIInfo c w order instances).calls.length ≤
      ((allInstances instances).map (fun inst => aws.ToString inst.ImageId)).toFinset.card ∧
    (∀ amis, (GatherAMIInfo c w order instances).outcome = Outcome.ret amis none →
      (GatherAMIInfo c w order instances).calls.map (fun call => call.1) =
        firstSeen ((allInstances instances).map (fun inst => aws.ToString inst.ImageId))) := by
  have hpre : (GatherAMIInfo c w order instances).calls.map (fun call => call.1) <+:
      firstSeen ((allInstances instances).map imageIdOf) := by
    rw [GatherAMIInfo_calls]
    exact runLoop_asked_prefix c w _
  refine ⟨hpre, (nodup_firstSeen _).sublist hpre.sublist, ?_, ?_, ?_⟩
  · intro id hid
    have h1 := (mem_firstSeen _ _).1 (hpre.subset hid)
    obtain ⟨inst, h2, h3⟩ := List.mem_map.1 h1
    exact ⟨inst, h2, h3⟩
  · have h1 := hpre.length_le
    rw [List.length_map, length_firstSeen] at h1
    exact h1
  · intro amis h
    obtain ⟨s, -, hinv, -, hcalls⟩ := GatherAMIInfo_ok c w order instances amis h
    rw [hcalls, hinv.asked]
    rfl

/-! ## Two runs against a deterministic resolver -/

theorem loopBody_view {σ : Type} (c : ec2.Client σ)
    (f : String → ec2.Reply ec2.DescribeImagesOutput)
    (hdet : ∀ w amiID, (GetAMIInfo c w amiID).1 = f amiID)
    (s1 s2 : LoopState σ) (h1 : s1.amiInfo = s2.amiInfo) (h2 : s1.calls = s2.calls)
    (a : types.Instance) : (loopBody c s1 a).view = (loopBody c s2 a).view := by
  unfold loopBody
  simp only [h1, h2]
  cases mapGet s2.amiInfo (aws.ToString a.ImageId) with
  | some v => cases a.InstanceId <;> simp [Flow.view, h1, h2]
  | none =>
    have e1 := hdet s1.world (aws.ToString a.ImageId)
    have e2 := hdet s2.world (aws.ToString a.ImageId)
    rcases hr1 : GetAMIInfo c s1.world (aws.ToString a.ImageId) with ⟨r1, w1⟩
    rcases hr2 : GetAMIInfo c s2.world (aws.ToString a.ImageId) with ⟨r2, w2⟩
    rw [hr1] at e1
    rw [hr2] at e2
    dsimp only at e1 e2
    subst e1
    rw [← e2]
    cases r2 with
    | error err => simp [Flow.view, h1, h2]
    | ok image => cases a.InstanceId <;> simp [Flow.view, h1, h2]

theorem loopStep_view {σ : Type} (c : ec2.Client σ)
    (f : String → ec2.Reply ec2.DescribeImagesOutput)
    (hdet : ∀ w amiID, (GetAMIInfo c w amiID).1 = f amiID)
    (fl1 fl2 : Flow σ) (h : fl1.view = fl2.view) (a : types.Instance) :
    (loopStep c fl1 a).view = (loopStep c fl2 a).view := by
  cases fl1 with
  | next s1 =>
    cases fl2 with
    | next s2 =>
      simp only [Flow.view, Flow.next.injEq, LoopState.mk.injEq, and_true] at h
      exact loopBody_view c f hdet s1 s2 h.1 h.2 a
    | ret err s2 => simp [Flow.view] at h
    | panic s2 => simp [Flow.view] at h
  | ret err s1 =>
    cases fl2 with
    | next s2 => simp [Flow.view] at h
    | ret err2 s2 => exact h
    | panic s2 => simp [Flow.view] at h
  | panic s1 =>
    cases fl2 with
    | next s2 => simp [Flow.view] at h
    | ret err2 s2 => simp [Flow.view] at h
    | panic s2 => exact h

theorem runLoop_view {σ : Type} (c : ec2.Client σ)
    (f : String → ec2.Reply ec2.DescribeImagesOutput)
    (hdet : ∀ w amiID, (GetAMIInfo c w amiID).1 = f amiID)
    (w1 w2 : σ) (l : List types.Instance) :
    (runLoop c w1 l).view = (runLoop c w2 l).view := by
  induction l using List.reverseRecOn with
  | nil => rfl
  | append_singleton l a ih =>
    rw [runLoop_snoc, runLoop_snoc]
    exact loopStep_view c f hdet _ _ ih a

/-- Two lists that are equal up to order and whose keys are pairwise distinct
hold the same entry, or none, under every key. -/
theorem perm_filter_key_eq (l1 l2 : List AMI) (hp : l1.Perm l2)
    (hn : (l1.map (fun g => g.AmiID)).Nodup) (k : String) :
    l1.filter (fun g => decide (g.AmiID = k)) = l2.filter (fun g => decide (g.AmiID = k)) := by
  have hn2 : (l2.map (fun g => g.AmiID)).Nodup := (hp.map _).nodup_iff.1 hn
  by_cases hex : ∃ g ∈ l1, g.AmiID = k
  · obtain ⟨g, hg, hk⟩ := hex
    subst hk
    rw [filter_key_eq_singleton (fun g : AMI => g.AmiID) l1 hn g hg,
      filter_key_eq_singleton (fun g : AMI => g.AmiID) l2 hn2 g (hp.mem_iff.1 hg)]
  · have e1 : l1.filter (fun g => decide (g.AmiID = k)) = [] := by
      rw [List.filter_eq_nil_iff]
      intro g hg hc
      exact hex ⟨g, hg, of_decide_eq_true hc⟩
    have e2 : l2.filter (fun g => decide (g.AmiID = k)) = [] := by
      rw [List.filter_eq_nil_iff]
      intro g hg hc
      exact hex ⟨g, hp.mem_iff.2 hg, of_decide_eq_true hc⟩
    rw [e1, e2]

/-- C9. Against a resolver whose answer is a function of the image identifier,
two runs of `GatherAMIInfo` on the same input, from any two service states and
under any two iteration orders of the map, make the same calls and end alike:
both stop on the same nil dereference, or both return the same error and no
groups, or both return groups that are the same up to the order of the list,
holding for every image identifier the same group. -/
theorem GatherAMIInfo_deterministic {σ : Type} (c : ec2.Client σ)
    (f : String → ec2.Reply ec2.DescribeImagesOutput)
    (hdet : ∀ w amiID, (GetAMIInfo c w amiID).1 = f amiID)
    (w1 w2 : σ) (order1 order2 : List Nat) (instances : ec2.DescribeInstancesOutput) :
    (GatherAMIInfo c w1 order1 instances).calls = (GatherAMIInfo c w2 order2 instances).calls ∧
    (((GatherAMIInfo c w1 order1 instances).outcome = Outcome.panic ∧
        (GatherAMIInfo c w2 order2 instances).outcome = Outcome.panic) ∨
      (∃ err, (GatherAMIInfo c w1 order1 instances).outcome = Outcome.ret [] (some err) ∧
        (GatherAMIInfo c w2 order2 instances).outcome = Outcome.ret [] (some err)) ∨
      (∃ amis1 amis2,
        (GatherAMIInfo c w1 order1 instances).outcome = Outcome.ret amis1 none ∧
        (GatherAMIInfo c w2 order2 instances).outcome = Outcome.ret amis2 none ∧
        amis1.Perm amis2 ∧ (∀ g, g ∈ amis1 ↔ g ∈ amis2) ∧
        ∀ k, amis1.filter (fun g => decide (g.AmiID = k)) =
          amis2.filter (fun g => decide (g.AmiID = k)))) := by
  have hv := runLoop_view c f hdet w1 w2 (allInstances instances)
  have hs1 := success_amiIDs c w1 order1 instances
  rw [GatherAMIInfo_eq, GatherAMIInfo_eq] at *
  cases hl1 : runLoop c w1 (allInstances instances) with
  | next s1 =>
    cases hl2 : runLoop c w2 (allInstances instances) with
    | next s2 =>
      rw [hl1, hl2] at hv
      rw [hl1] at hs1
      simp only [Flow.view, Flow.next.injEq, LoopState.mk.injEq, and_true] at hv
      refine ⟨hv.2, Or.inr (Or.inr ⟨_, _, rfl, rfl, ?_⟩)⟩
      have hp : (rangeOrder order1 (s1.amiInfo.map (fun e => e.2))).Perm
          (rangeOrder order2 (s2.amiInfo.map (fun e => e.2))) := by
        rw [hv.1]
        exact (rangeOrder_perm order1 _).trans (rangeOrder_perm order2 _).symm
      have hn := (hs1 _ rfl).nodup_iff.2 (nodup_firstSeen _)
      exact ⟨hp, fun g => hp.mem_iff, perm_filter_key_eq _ _ hp hn⟩
    | ret err s2 => rw [hl1, hl2] at hv; simp [Flow.view] at hv
    | panic s2 => rw [hl1, hl2] at hv; simp [Flow.view] at hv
  | ret err s1 =>
    cases hl2 : runLoop c w2 (allInstances instances) with
    | next s2 => rw [hl1, hl2] at hv; simp [Flow.view] at hv
    | ret err2 s2 =>
      rw [hl1, hl2] at hv
      simp only [Flow.view, Flow.ret.injEq, LoopState.mk.injEq, and_true] at hv
      obtain ⟨h1, -, h3⟩ := hv
      subst h1
      exact ⟨h3, Or.inr (Or.inl ⟨err, rfl, rfl⟩)⟩
    | panic s2 => rw [hl1, hl2] at hv; simp [Flow.view] at hv
  | panic s1 =>
    cases hl2 : runLoop c w2 (allInstances instances) with
    | next s2 => rw [hl1, hl2] at hv; simp [Flow.view] at hv
    | ret err2 s2 => rw [hl1, hl2] at hv; simp [Flow.view] at hv
    | panic s2 =>
      rw [hl1, hl2] at hv
      simp only [Flow.view, Flow.panic.injEq, LoopState.mk.injEq, and_true] at hv
      exact ⟨hv.2, Or.inl ⟨rfl, rfl⟩⟩

/-- A run that returns an error made its last lookup fail with that error. -/
theorem GatherAMIInfo_error_tail {σ : Type} (c : ec2.Client σ) (w : σ) (order : List Nat)
    (instances : ec2.DescribeInstancesOutput) (amis : List AMI) (err : GoError)
    (h : (GatherAMIInfo c w order instances).outcome = Outcome.ret amis (some err)) :
    ∃ id before, (GatherAMIInfo c w order instances).calls =
      before ++ [(id, ec2.Reply.error err)] := by
  obtain ⟨-, s, hs⟩ := GatherAMIInfo_err c w order instances amis err h
  obtain ⟨pre, a, post, s0, -, -, -, h4⟩ := runLoop_ret c w _ err s hs
  rw [GatherAMIInfo_calls, hs]
  exact ⟨imageIdOf a, s0.calls, h4⟩

/-! ## Calls are never taken back -/

theorem loopStep_calls {σ : Type} (c : ec2.Client σ) (fl : Flow σ) (a : types.Instance) :
    fl.state.calls <+: (loopStep c fl a).state.calls := by
  cases fl with
  | next s =>
    change s.calls <+: (loopBody c s a).state.calls
    rcases loopBody_cases c s a with ⟨v, _, _, e⟩ | ⟨v, i, _, _, e⟩ | ⟨err, w', _, _, e⟩ |
      ⟨image, w', _, _, _, e⟩ | ⟨image, w', i, _, _, _, e⟩ <;> rw [e] <;>
      first
        | exact List.prefix_refl _
        | exact List.prefix_append _ _
  | ret err s => exact List.prefix_refl _
  | panic s => exact List.prefix_refl _

theorem foldl_calls {σ : Type} (c : ec2.Client σ) (l : List types.Instance) (fl : Flow σ) :
    fl.state.calls <+: (l.foldl (loopStep c) fl).state.calls := by
  induction l generalizing fl with
  | nil => exact List.prefix_refl _
  | cons a l ih => exact (loopStep_calls c fl a).trans (ih _)

/-- Once the loop reaches an instance, a lookup for its image identifier is
among the calls of the run. -/
theorem runLoop_reached {σ : Type} (c : ec2.Client σ) (w : σ) (pre post : List types.Instance)
    (a : types.Instance) (s0 : LoopState σ) (h : runLoop c w pre = Flow.next s0) :
    ∃ reply, (imageIdOf a, reply) ∈ (runLoop c w (pre ++ a :: post)).state.calls := by
  have hinv := runLoop_next c w pre s0 h
  have hsplit : runLoop c w (pre ++ a :: post) = post.foldl (loopStep c) (loopBody c s0 a) := by
    unfold runLoop at h ⊢
    rw [List.foldl_append, List.foldl_cons, h]
    rfl
  have hhere : ∃ reply, (imageIdOf a, reply) ∈ (loopBody c s0 a).state.calls := by
    have hold : ∀ v, mapGet s0.amiInfo (imageIdOf a) = some v →
        ∃ reply, (imageIdOf a, reply) ∈ s0.calls := by
      intro v hv
      obtain ⟨-, -, image, h3, -⟩ := hinv.entries _ (mapGet_mem _ _ _ hv)
      exact ⟨_, h3⟩
    rcases loopBody_cases c s0 a with ⟨v, hg, _, e⟩ | ⟨v, i, hg, _, e⟩ | ⟨err, w', _, _, e⟩ |
      ⟨image, w', _, _, _, e⟩ | ⟨image, w', i, _, _, _, e⟩ <;> rw [e]
    · exact hold v hg
    · exact hold v hg
    · exact ⟨_, List.mem_append_right _ (List.mem_singleton.2 rfl)⟩
    · exact ⟨_, List.mem_append_right _ (List.mem_singleton.2 rfl)⟩
    · exact ⟨_, List.mem_append_right _ (List.mem_singleton.2 rfl)⟩
  obtain ⟨reply, hr⟩ := hhere
  rw [hsplit]
  exact ⟨reply, (foldl_calls c post _).subset hr⟩

theorem allInstances_single (l : List types.Instance) :
    allInstances { Reservations := [{ Instances := l }] } = l := by
  simp [allInstances]

/-- C10. An instance whose image identifier is missing or the empty string is
processed like any other. If the instances before it are processed without
failure, `GetAMIInfo` is called with `""`; when the run succeeds, the call for
`""` was answered and exactly one returned group has `AmiID = ""`, it holds the
identifier of that instance, and its identifiers are those of all instances
with a missing or an empty image identifier, in input order. An error the run
returns is always the failing answer of its last lookup, never one made up for
the empty identifier; and processing that instance after the ones before it
ends well whenever it has an instance identifier and the lookup for `""` does
not fail. -/
theorem empty_image_id_grouped {σ : Type} (c : ec2.Client σ) (w : σ) (order : List Nat)
    (instances : ec2.DescribeInstancesOutput) (inst : types.Instance)
    (hin : inst ∈ allInstances instances)
    (hid : inst.ImageId = none ∨ inst.ImageId = some "") :
    (∀ pre post, allInstances instances = pre ++ inst :: post →
      (∃ amis0, (GatherAMIInfo c w order { Reservations := [{ Instances := pre }] }).outcome =
        Outcome.ret amis0 none) →
      ∃ reply, ("", reply) ∈ (GatherAMIInfo c w order instances).calls) ∧
    (∀ amis, (GatherAMIInfo c w order instances).outcome = Outcome.ret amis none →
      (∃ image, ("", ec2.Reply.ok image) ∈ (GatherAMIInfo c w order instances).calls) ∧
      ∃ g ∈ amis, g.AmiID = "" ∧ (∀ g' ∈ amis, g'.AmiID = "" → g' = g) ∧
        (∃ i, inst.InstanceId = some i ∧ i ∈ g.InstanceIds) ∧
        g.InstanceIds.map some =
          ((allInstances instances).filter
            (fun x => decide (x.ImageId = none ∨ x.ImageId = some ""))).map
              (fun x => x.InstanceId)) ∧
    (∀ amis err, (GatherAMIInfo c w order instances).outcome = Outcome.ret amis (some err) →
      ∃ id before, (GatherAMIInfo c w order instances).calls =
        before ++ [(id, ec2.Reply.error err)]) ∧
    (∀ pre post, allInstances instances = pre ++ inst :: post →
      (∃ amis0, (GatherAMIInfo c w order { Reservations := [{ Instances := pre }] }).outcome =
        Outcome.ret amis0 none) →
      inst.InstanceId ≠ none →
      (∀ err, ("", ec2.Reply.error err) ∉
        (GatherAMIInfo c w order { Reservations := [{ Instances := pre ++ [inst] }] }).calls) →
      ∃ amis1,
        (GatherAMIInfo c w order { Reservations := [{ Instances := pre ++ [inst] }] }).outcome =
          Outcome.ret amis1 none) := by
  have hkey : imageIdOf inst = "" := by
    rcases hid with h | h <;> simp [imageIdOf, aws.ToString, h]
  refine ⟨?_, ?_, ?_, ?_⟩
  · intro pre post hall ⟨amis0, h0⟩
    obtain ⟨s0, hs0, -, -, -⟩ := GatherAMIInfo_ok c w order _ amis0 h0
    rw [allInstances_single] at hs0
    obtain ⟨reply, hr⟩ := runLoop_reached c w pre post inst s0 hs0
    rw [hkey, ← hall, ← GatherAMIInfo_calls c w order instances] at hr
    exact ⟨reply, hr⟩
  · intro amis h
    have hperm := success_amiIDs c w order instances amis h
    have hmem : "" ∈ amis.map (fun g => g.AmiID) := by
      rw [hperm.mem_iff, mem_firstSeen, imageIds, ← hkey]
      exact List.mem_map_of_mem _ hin
    obtain ⟨g, hg, hgk⟩ := List.mem_map.1 hmem
    obtain ⟨-, hids, image, hcall, -⟩ := success_group c w order instances amis h g hg
    rw [hgk] at hcall hids
    refine ⟨⟨image, hcall⟩, g, hg, hgk, ?_, ?_, ?_⟩
    · intro g' hg' hk
      exact List.inj_on_of_nodup_map (hperm.nodup_iff.2 (nodup_firstSeen _)) hg' hg
        (hk.trans hgk.symm)
    · have h1 : inst.InstanceId ∈ g.InstanceIds.map some := by
        rw [hids]
        exact List.mem_map_of_mem _ (List.mem_filter.2 ⟨hin, decide_eq_true hkey⟩)
      obtain ⟨i, hi, hsome⟩ := List.mem_map.1 h1
      exact ⟨i, hsome.symm, hi⟩
    · rw [hids, instancesOf]
      congr 1
      apply List.filter_congr
      intro x _
      cases hx : x.ImageId with
      | none => simp [imageIdOf, aws.ToString, hx]
      | some v => simp [imageIdOf, aws.ToString, hx]
  · intro amis err h
    exact GatherAMIInfo_error_tail c w order instances amis err h
  · intro pre post _ ⟨amis0, h0⟩ hsome hnofail
    obtain ⟨s0, hs0, -, -, -⟩ := GatherAMIInfo_ok c w order _ amis0 h0
    rw [allInstances_single] at hs0
    have hstep : loopStep c (Flow.next s0) inst = loopBody c s0 inst := rfl
    rw [GatherAMIInfo_calls, allInstances_single, runLoop_snoc, hs0, hstep] at hnofail
    rw [GatherAMIInfo_eq, allInstances_single, runLoop_snoc, hs0, hstep]
    rcases loopBody_cases c s0 inst with ⟨v, _, hi, e⟩ | ⟨v, i, _, _, e⟩ | ⟨err, w', _, _, e⟩ |
      ⟨image, w', _, _, hi, e⟩ | ⟨image, w', i, _, _, _, e⟩
    · exact absurd hi hsome
    · rw [e]; exact ⟨_, rfl⟩
    · rw [e, hkey] at hnofail
      exact absurd (List.mem_append_right _ (List.mem_singleton.2 rfl)) (hnofail err)
    · exact absurd hi hsome
    · rw [e]; exact ⟨_, rfl⟩

/-! ## Concrete runs -/

/-- C1, counterexample. Two instances with the distinct images `img-1` and
`img-2`, and a catalog that fails: the run stops on the first lookup, one call
for two distinct image identifiers. -/
theorem calls_count_failing_run :
    allInstances twoImages ≠ [] ∧
    ((allInstances twoImages).map (fun inst => aws.ToString inst.ImageId)).toFinset.card = 2 ∧
    (GatherAMIInfo failingCatalog () [] twoImages).calls.length = 1 ∧
    (GatherAMIInfo failingCatalog () [] twoImages).outcome =
      Outcome.ret [] (some (GoError.new "RequestError")) := by
  decide

/-- C1, witness: two instances of two images, two calls. -/
theorem GatherAMIInfo_calls_count_witness :
    (GatherAMIInfo emptyCatalog () [] twoImages).outcome =
      Outcome.ret [{ AmiID := "img-1", Image := {}, InstanceIds := ["i-1"] },
        { AmiID := "img-2", Image := {}, InstanceIds := ["i-2"] }] none ∧
    (GatherAMIInfo emptyCatalog () [] twoImages).calls.length =
      ((allInstances twoImages).map (fun inst => aws.ToString inst.ImageId)).toFinset.card :=
  ⟨by decide, GatherAMIInfo_calls_count emptyCatalog () [] twoImages
    [{ AmiID := "img-1", Image := {}, InstanceIds := ["i-1"] },
      { AmiID := "img-2", Image := {}, InstanceIds := ["i-2"] }] (by decide)⟩

/-- C2, counterexample. Two instance records of image `img-1` that both carry
the identifier `i-1`: the one returned group holds `i-1` twice. -/
theorem group_instanceIds_duplicate :
    (GatherAMIInfo emptyCatalog () [] repeatedInstance).outcome =
      Outcome.ret [{ AmiID := "img-1", Image := {}, InstanceIds := ["i-1", "i-1"] }] none ∧
    ¬ (["i-1", "i-1"] : List String).Nodup := by
  decide

/-- C2, witness: the group of two instances that share an image. -/
theorem group_instanceIds_nonempty_witness :
    (GatherAMIInfo emptyCatalog () [] sharedImage).outcome =
      Outcome.ret [{ AmiID := "img-1", Image := {}, InstanceIds := ["i-1", "i-2"] }] none ∧
    1 ≤ (["i-1", "i-2"] : List String).length ∧ (["i-1", "i-2"] : List String).Nodup :=
  have h := group_instanceIds_nonempty emptyCatalog () [] sharedImage
    [{ AmiID := "img-1", Image := {}, InstanceIds := ["i-1", "i-2"] }] none (by decide)
    { AmiID := "img-1", Image := {}, InstanceIds := ["i-1", "i-2"] } (by decide)
  ⟨by decide, h.1, h.2.2 (by decide)⟩

/-- C4, witness: two instances sharing `img-1`, the first-seen identifier first. -/
theorem group_instanceIds_eq_witness :
    (GatherAMIInfo emptyCatalog () [] sharedImage).outcome =
      Outcome.ret [{ AmiID := "img-1", Image := {}, InstanceIds := ["i-1", "i-2"] }] none ∧
    ∀ g ∈ [({ AmiID := "img-1", Image := {}, InstanceIds := ["i-1", "i-2"] } : AMI)],
      g.InstanceIds.map some =
        ((allInstances sharedImage).filter
          (fun inst => decide (aws.ToString inst.ImageId = g.AmiID))).map
            (fun inst => inst.InstanceId) :=
  ⟨by decide, (group_instanceIds_eq emptyCatalog () [] sharedImage
    [{ AmiID := "img-1", Image := {}, InstanceIds := ["i-1", "i-2"] }] (by decide)).1⟩

/-- C5, witness: two instances with distinct images yield two groups. -/
theorem groups_one_per_image_witness :
    (GatherAMIInfo emptyCatalog () [1] twoImages).outcome =
      Outcome.ret [{ AmiID := "img-2", Image := {}, InstanceIds := ["i-2"] },
        { AmiID := "img-1", Image := {}, InstanceIds := ["i-1"] }] none ∧
    ([{ AmiID := "img-2", Image := {}, InstanceIds := ["i-2"] },
        { AmiID := "img-1", Image := {}, InstanceIds := ["i-1"] }] : List AMI).length =
      ((allInstances twoImages).map (fun inst => aws.ToString inst.ImageId)).toFinset.card :=
  ⟨by decide, (groups_one_per_image emptyCatalog () [1] twoImages
    [{ AmiID := "img-2", Image := {}, InstanceIds := ["i-2"] },
      { AmiID := "img-1", Image := {}, InstanceIds := ["i-1"] }] (by decide)).1⟩

/-- C6, witness: one instance of `img-1` and a catalog answering the image `N`. -/
theorem group_image_metadata_witness :
    (GatherAMIInfo namedCatalog () []
      { Reservations := [{ Instances :=
          [{ ImageId := some "img-1", InstanceId := some "i-1" }] }] }).outcome =
      Outcome.ret
        [{ AmiID := "img-1"
           InstanceIds := ["i-1"]
           Image := { ImageDescription := "", ImageName := "N", ImageLocation := "",
                      OwnerID := "owner" } }] none :=
  (group_image_metadata namedCatalog () [] twoImages
    [{ AmiID := "img-1", InstanceIds := ["i-1"]
       Image := { ImageDescription := "", ImageName := "N", ImageLocation := "",
                  OwnerID := "owner" } },
     { AmiID := "img-2", InstanceIds := ["i-2"]
       Image := { ImageDescription := "", ImageName := "N", ImageLocation := "",
                  OwnerID := "owner" } }]
    (by decide)).2.1 (some "img-1") "i-1"
      { Description := none, Name := some "N", ImageLocation := none, OwnerId := some "owner" }
      () (by decide)

/-- C7, counterexample. The lister answers one reservation that holds no
instance: zero instances in total, yet `GatherAMIInfo` is invoked and the error
is not "no running instances were found". -/
theorem runApp_empty_reservation :
    allInstances emptyReservation = [] ∧
    (runApp (envListing emptyReservation) ()).gathered = true ∧
    (runApp (envListing emptyReservation) ()).result =
      some (some (GoError.new
        "no Amazon Machine Images (AMIs) were found for the running instances")) ∧
    (runApp (envListing emptyReservation) ()).result ≠
      some (some (GoError.new "no running instances were found")) := by
  decide

/-- C7, witness: the lister answers no reservation at all. -/
theorem runApp_no_instances_witness :
    allInstances { Reservations := [] } = [] ∧
    (runApp (envListing { Reservations := [] }) ()).gathered = false ∧
    (runApp (envListing { Reservations := [] }) ()).result =
      some (some (GoError.new "no running instances were found")) :=
  ⟨by decide,
    (runApp_no_instances (envListing { Reservations := [] }) () () { Reservations := [] }
      rfl rfl (by decide)).2.2.1 rfl⟩

/-- C8, the code at the failing input. The first instance record has no
instance identifier: its lookup is answered, the raw dereference of the
identifier (lines 90 and 110, where every other pointer field is read through
`aws.ToString`) panics, and the lookup for `img-2` is never made although no
call failed, so the identifiers asked for are not the whole sequence of
distinct image identifiers. -/
theorem calls_stop_at_missing_instance_id :
    (GatherAMIInfo emptyCatalog () [] missingInstanceId).calls =
      [("img-1", ec2.Reply.ok { Images := [] })] ∧
    (GatherAMIInfo emptyCatalog () [] missingInstanceId).outcome = Outcome.panic ∧
    firstSeen ((allInstances missingInstanceId).map (fun inst => aws.ToString inst.ImageId)) =
      ["img-1", "img-2"] := by
  decide

/-- C9, witness: two runs over two images under two iteration orders. -/
theorem GatherAMIInfo_deterministic_witness :
    (∀ w amiID, (GetAMIInfo emptyCatalog w amiID).1 = ec2.Reply.ok { Images := [] }) ∧
    (GatherAMIInfo emptyCatalog () [] twoImages).outcome =
      Outcome.ret [{ AmiID := "img-1", Image := {}, InstanceIds := ["i-1"] },
        { AmiID := "img-2", Image := {}, InstanceIds := ["i-2"] }] none ∧
    (GatherAMIInfo emptyCatalog () [1] twoImages).outcome =
      Outcome.ret [{ AmiID := "img-2", Image := {}, InstanceIds := ["i-2"] },
        { AmiID := "img-1", Image := {}, InstanceIds := ["i-1"] }] none ∧
    (GatherAMIInfo emptyCatalog () [] twoImages).calls =
      (GatherAMIInfo emptyCatalog () [1] twoImages).calls :=
  ⟨fun _ _ => rfl, by decide, by decide,
    (GatherAMIInfo_deterministic emptyCatalog (fun _ => ec2.Reply.ok { Images := [] })
      (fun _ _ => rfl) () () [] [1] twoImages).1⟩

/-- C10, witness: an instance without an image identifier and one with the
empty identifier end up in the group of `""`. -/
theorem empty_image_id_grouped_witness :
    (GatherAMIInfo namedCatalog () [] noImageId).outcome =
      Outcome.ret
        [{ AmiID := "", InstanceIds := ["i-1", "i-2"]
           Image := { ImageDescription := "", ImageName := "N", ImageLocation := "",
                      OwnerID := "owner" } }] none ∧
    ∃ reply, ("", reply) ∈ (GatherAMIInfo namedCatalog () [] noImageId).calls :=
  ⟨by decide,
    (empty_image_id_grouped namedCatalog () [] noImageId
      { ImageId := none, InstanceId := some "i-1" } (by decide) (Or.inl rfl)).1
      [] [{ ImageId := some "", InstanceId := some "i-2" }] (by decide) ⟨[], by decide⟩⟩

end Ec2info
